import Mathlib

/-!
Verification development for the VigilIntel OpenCTI connector
(`lib/vigilintel.py`).  Calendar dates are modelled as integers counting
days (one day = `+1`); `today` is the current UTC date truncated to a
day.  The connector state, the fetch outcomes and the sink outcomes are
modelled explicitly, and the core functions `_compute_date_range`,
`_download_report`, `_validate_stix_bundle` and `_process_dates` are
embedded as executable Lean functions.
-/

namespace VigilIntel

/-- A JSON value, as produced by `response.json()`. -/
inductive JValue where
  | jnull : JValue
  | jbool : Bool → JValue
  | jnum : Int → JValue
  | jstr : String → JValue
  | jarr : List JValue → JValue
  | jobj : List (String × JValue) → JValue
deriving Repr

/-- Python `dict.get` / `key in dict` lookup on the field list of a
JSON object (keys are unique in a parsed JSON object; first match). -/
def jlookup (k : String) : List (String × JValue) → Option JValue
  | [] => none
  | (k2, v) :: rest => if k2 = k then some v else jlookup k rest

/-- Outcome of the HTTP GET inside `_download_report` for one date:
HTTP 404; any other transport-level failure (`RequestException`,
which includes timeouts and `raise_for_status` on non-2xx); a 2xx
response whose body is not parseable as JSON (`JSONDecodeError`);
or a 2xx response with parsed JSON body. -/
inductive FetchResult where
  | notFound : FetchResult
  | transportError : FetchResult
  | badJson : FetchResult
  | ok : JValue → FetchResult
deriving Repr

/-- The external world during one pass: the fetch outcome per date and
whether `helper.send_stix2_bundle` succeeds for the bundle of a date
(`_send_to_opencti` returns `True` on success, `False` on failure). -/
structure Env where
  fetch : Int → FetchResult
  sendOk : Int → Bool

/-- Embedding of `_download_report`: returns the parsed JSON on a 2xx response with
a JSON body, and `None` on 404, transport error, or invalid JSON. -/
def download_report (env : Env) (d : Int) : Option JValue :=
  match env.fetch d with
  | .notFound => none
  | .transportError => none
  | .badJson => none
  | .ok j => some j

/-- Embedding of `_validate_stix_bundle`: the payload must be a dict, its `"type"`
field must equal `"bundle"`, and it must have an `"objects"` field
holding a list. -/
def validate_stix_bundle (bundle : JValue) : Bool :=
  match bundle with
  | .jobj fields =>
    (match jlookup "type" fields with
     | some (.jstr s) => s = "bundle"
     | _ => false)
    &&
    (match jlookup "objects" fields with
     | some (.jarr _) => true
     | _ => false)
  | _ => false

/-- The persisted connector state as read by `_compute_date_range`:
`helper.get_state()` may return nothing, a mapping without the
`last_processed_date` key, a mapping whose value fails
`datetime.fromisoformat` (`ValueError`/`TypeError`), or a mapping whose
value parses to a date `d`. -/
inductive StoredState where
  | noState : StoredState
  | noKey : StoredState
  | unparseable : StoredState
  | validDate : Int → StoredState
deriving Repr, DecidableEq

/-- Lines 116–124 of `_compute_date_range`: the `last_processed`
local after the guarded parse (`None` unless the state holds a
parseable date). -/
def parse_last_processed : StoredState → Option Int
  | .validDate d => some d
  | _ => none

/-- The `while current <= today` loop of `_compute_date_range`:
collects `current, current+1, …, today`. -/
def build_dates (current today : Int) : List Int :=
  if h : current ≤ today then
    current :: build_dates (current + 1) today
  else
    []
termination_by (today + 1 - current).toNat
decreasing_by
  omega

/-- Embedding of `_compute_date_range`: with no (parseable) watermark, backfill from
`today - lookback_days`; otherwise start the day after the watermark,
returning `[]` when that start lies after today. -/
def compute_date_range (today lookback_days : Int) (st : StoredState) : List Int :=
  match parse_last_processed st with
  | none => build_dates (today - lookback_days) today
  | some last_processed =>
    let start_date := last_processed + 1
    if start_date > today then []
    else build_dates start_date today

/-- The per-pass counters and the watermark candidate
(`success_count`, `skip_count`, `error_count`, `last_success_date`),
plus the list of bundles passed to `_send_to_opencti` (each call of
the send operation appends its bundle, whether or not it succeeds). -/
structure PassCounts where
  success_count : Nat
  skip_count : Nat
  error_count : Nat
  last_success_date : Option Int
  sent : List JValue
deriving Repr

/-- Counter state at the top of the `for` loop of `_process_dates`. -/
def initCounts : PassCounts :=
  { success_count := 0, skip_count := 0, error_count := 0,
    last_success_date := none, sent := [] }

/-- One iteration of the `for target_date in dates` loop of
`_process_dates`: download, count a skip on `None` (advancing the
candidate), count an error on failed validation (advancing the
candidate), otherwise attempt the send, counting a success (advancing
the candidate) or an error (candidate unchanged). -/
def process_date (env : Env) (c : PassCounts) (d : Int) : PassCounts :=
  match download_report env d with
  | none =>
    { c with skip_count := c.skip_count + 1, last_success_date := some d }
  | some bundle =>
    if ¬ (validate_stix_bundle bundle = true) then
      { c with error_count := c.error_count + 1, last_success_date := some d }
    else
      if env.sendOk d then
        { c with success_count := c.success_count + 1,
                 last_success_date := some d,
                 sent := c.sent ++ [bundle] }
      else
        { c with error_count := c.error_count + 1,
                 sent := c.sent ++ [bundle] }

/-- The whole `for` loop of `_process_dates` over the date list. -/
def run_pass (env : Env) (dates : List Int) : PassCounts :=
  dates.foldl (process_date env) initCounts

/-- The summary string built at the end of `_process_dates` and handed
to `work.to_processed`. -/
def summary_message (success_count skip_count error_count total : Nat) : String :=
  "VigilIntel run complete — "
    ++ toString success_count ++ " imported, "
    ++ toString skip_count ++ " skipped, "
    ++ toString error_count ++ " errors (out of "
    ++ toString total ++ " dates)"

/-- The observable result of one `_process_dates` call: the watermark
written by `set_state` (if any), the finalization message (absent when
the date list was empty and the function returned early), and the final
counters. -/
structure PassResult where
  persisted : Option Int
  message : Option String
  counts : PassCounts
deriving Repr

/-- Embedding of `_process_dates`: compute the dates, return early when none,
otherwise run the loop, persist the candidate as the new
`last_processed_date` when it is set and at least one date succeeded,
and build the summary message. -/
def process_dates (env : Env) (today lookback_days : Int) (st : StoredState) : PassResult :=
  let dates := compute_date_range today lookback_days st
  if dates.isEmpty then
    { persisted := none, message := none, counts := initCounts }
  else
    let c := run_pass env dates
    let persisted :=
      match c.last_success_date with
      | some d => if c.success_count ≥ 1 then some d else none
      | none => none
    { persisted := persisted,
      message := some (summary_message c.success_count c.skip_count c.error_count dates.length),
      counts := c }

/-- The state store after a pass: `set_state` overwrites the watermark
with the persisted date when one was written, otherwise the store still
holds the prior state. -/
def updated_state (st : StoredState) (persisted : Option Int) : StoredState :=
  match persisted with
  | some d => .validDate d
  | none => st

/-- Whether processing date `d` moves the `last_success_date` candidate
forward: every outcome does except a sink-forwarding failure on a valid
bundle. -/
def advances_candidate (env : Env) (d : Int) : Bool :=
  match download_report env d with
  | none => true
  | some bundle => if validate_stix_bundle bundle then env.sendOk d else true

/-- The `isinstance(bundle, dict)` test of `_validate_stix_bundle`. -/
def is_dict : JValue → Bool
  | .jobj _ => true
  | _ => false

/-- A well-formed STIX bundle with no objects. -/
def bundle_ok0 : JValue :=
  .jobj [("type", .jstr "bundle"), ("objects", .jarr [])]

/-- A well-formed STIX bundle with five objects. -/
def bundle_ok5 : JValue :=
  .jobj [("type", .jstr "bundle"),
         ("objects", .jarr [.jnull, .jnull, .jnull, .jnull, .jnull])]

/-- The §8 scenario environment: 404 on day 8 (2024-03-08), a valid
five-object bundle on day 9 (2024-03-09), a transport error on day 10
(2024-03-10); the sink always succeeds. -/
def env_scenario : Env :=
  { fetch := fun d =>
      if d = 8 then .notFound
      else if d = 9 then .ok bundle_ok5
      else .transportError,
    sendOk := fun _ => true }

/-- Every fetch yields a valid bundle; the sink succeeds only for
day 1, so the forwarding for day 2 fails. -/
def env_send_fail_last : Env :=
  { fetch := fun _ => .ok bundle_ok0,
    sendOk := fun d => decide (d = 1) }

/-- Day 4 yields a valid bundle, every other day is a 404; the sink
always succeeds. -/
def env_witness : Env :=
  { fetch := fun d => if d = 4 then .ok bundle_ok0 else .notFound,
    sendOk := fun _ => true }

/-- Every fetch fails with a transport error. -/
def env_all_transport_fail : Env :=
  { fetch := fun _ => .transportError, sendOk := fun _ => true }

/-- Every fetch yields a JSON payload that is a top-level list, not a
mapping; the sink always succeeds. -/
def env_nondict : Env :=
  { fetch := fun _ => .ok (.jarr []), sendOk := fun _ => true }

/-! Section: Helper lemmas about the date-range builder -/

theorem build_dates_eq_aux : ∀ (n : Nat) (s t : Int), (t + 1 - s).toNat = n →
    build_dates s t = (List.range n).map (fun i : Nat => (s + i : Int)) := by
  intro n
  induction n with
  | zero =>
    intro s t h
    rw [build_dates]
    have hns : ¬ s ≤ t := by omega
    simp [hns]
  | succ m ih =>
    intro s t h
    rw [build_dates]
    have hle : s ≤ t := by omega
    rw [dif_pos hle, ih (s + 1) t (by omega), List.range_succ_eq_map,
      List.map_cons, List.map_map]
    refine congrArg₂ _ (by omega) (List.map_congr_left ?_)
    intro a _
    simp [Function.comp]
    omega

/-- `build_dates s t` is the arithmetic progression `s, s+1, …, t`. -/
theorem build_dates_eq (s t : Int) :
    build_dates s t = (List.range (t + 1 - s).toNat).map (fun i : Nat => (s + i : Int)) :=
  build_dates_eq_aux _ s t rfl

theorem build_dates_length (s t : Int) :
    (build_dates s t).length = (t + 1 - s).toNat := by
  rw [build_dates_eq]; simp

theorem build_dates_mem {s t x : Int} :
    x ∈ build_dates s t ↔ s ≤ x ∧ x ≤ t := by
  rw [build_dates_eq]
  simp only [List.mem_map, List.mem_range]
  constructor
  · rintro ⟨i, hi, rfl⟩
    omega
  · rintro ⟨h1, h2⟩
    exact ⟨(x - s).toNat, by omega, by omega⟩

theorem build_dates_getLast (s t : Int) (h : s ≤ t) :
    (build_dates s t).getLast? = some t := by
  rw [build_dates_eq]
  have hn : (t + 1 - s).toNat = (t - s).toNat + 1 := by omega
  rw [hn, List.range_succ, List.map_append, List.map_cons, List.map_nil,
    List.getLast?_concat]
  congr 1
  omega

theorem build_dates_sorted (s t : Int) :
    (build_dates s t).Pairwise (· ≤ ·) := by
  rw [build_dates_eq]
  exact (List.pairwise_lt_range _).map _ (fun a b hab => by omega)

theorem compute_date_range_sorted (today lookback_days : Int) (st : StoredState) :
    (compute_date_range today lookback_days st).Pairwise (· ≤ ·) := by
  unfold compute_date_range
  cases parse_last_processed st with
  | none => exact build_dates_sorted _ _
  | some lp =>
    by_cases h : lp + 1 > today
    · simp [h]
    · simp only [h, if_false]
      exact build_dates_sorted _ _

/-- Any member of a `≤`-sorted list is at most its last element. -/
theorem mem_le_getLast {l : List Int} (hs : l.Pairwise (· ≤ ·))
    {x : Int} (hx : x ∈ l) {y : Int} (hy : l.getLast? = some y) : x ≤ y := by
  induction l with
  | nil => cases hx
  | cons a t ih =>
    cases t with
    | nil =>
      simp at hx hy
      omega
    | cons b t2 =>
      rw [List.getLast?_cons_cons] at hy
      rcases List.mem_cons.mp hx with rfl | hx2
      · have hyt : y ∈ b :: t2 := by
          rcases List.mem_getLast?_eq_getLast (Option.mem_def.mpr hy) with ⟨hne, hyl⟩
          exact hyl ▸ List.getLast_mem hne
        exact (List.pairwise_cons.mp hs).1 y hyt
      · exact ih (List.pairwise_cons.mp hs).2 hx2 hy

/-! Section: Helper lemmas about one loop iteration -/

theorem process_date_last_success (env : Env) (c : PassCounts) (d : Int) :
    (process_date env c d).last_success_date
      = if advances_candidate env d then some d else c.last_success_date := by
  unfold process_date advances_candidate
  cases hdl : download_report env d with
  | none => simp
  | some b =>
    by_cases hv : validate_stix_bundle b = true
    · by_cases hs : env.sendOk d = true <;> simp [hv, hs]
    · simp [hv]

theorem process_date_success_not_adv (env : Env) (c : PassCounts) (d : Int)
    (h : advances_candidate env d = false) :
    (process_date env c d).success_count = c.success_count := by
  unfold advances_candidate at h
  unfold process_date
  cases hdl : download_report env d with
  | none => rfl
  | some b =>
    rw [hdl] at h
    by_cases hv : validate_stix_bundle b = true
    · simp only [hv, if_true] at h
      simp [hv, h]
    · simp [hv] at h

theorem process_date_sent (env : Env) (c : PassCounts) (d : Int) (b : JValue)
    (h : b ∈ (process_date env c d).sent) :
    b ∈ c.sent ∨ validate_stix_bundle b = true := by
  unfold process_date at h
  cases hdl : download_report env d with
  | none => rw [hdl] at h; exact .inl h
  | some b2 =>
    rw [hdl] at h
    by_cases hv : validate_stix_bundle b2 = true
    · by_cases hs : env.sendOk d = true
      · simp only [hv, hs, not_true, if_false, if_true] at h
        rcases List.mem_append.mp h with h2 | h2
        · exact .inl h2
        · exact .inr (by simpa using List.mem_singleton.mp h2 ▸ hv)
      · simp only [hv, hs, not_true, if_false] at h
        rcases List.mem_append.mp h with h2 | h2
        · exact .inl h2
        · exact .inr (by simpa using List.mem_singleton.mp h2 ▸ hv)
    · simp only [hv, not_false_iff, if_true] at h
      exact .inl h

/-! Section: Helper lemmas about the whole loop -/

theorem foldl_last_success (env : Env) : ∀ (dates : List Int) (c : PassCounts),
    (dates.foldl (process_date env) c).last_success_date
      = ((dates.filter (advances_candidate env)).getLast?).or c.last_success_date := by
  intro dates
  induction dates with
  | nil => intro c; simp
  | cons d rest ih =>
    intro c
    rw [List.foldl_cons, ih, List.filter_cons]
    by_cases ha : advances_candidate env d = true
    · rw [if_pos ha, process_date_last_success, if_pos ha]
      cases hrf : rest.filter (advances_candidate env) with
      | nil => simp
      | cons x xs =>
        rw [List.getLast?_cons_cons]
        cases hgl : (x :: xs).getLast? with
        | none => exact absurd (List.getLast?_eq_none_iff.mp hgl) (by simp)
        | some y => simp
    · rw [if_neg ha, process_date_last_success, if_neg ha]

theorem foldl_success_zero (env : Env) : ∀ (dates : List Int) (c : PassCounts),
    (∀ d ∈ dates, advances_candidate env d = false) →
    (dates.foldl (process_date env) c).success_count = c.success_count := by
  intro dates
  induction dates with
  | nil => intro c _; rfl
  | cons d rest ih =>
    intro c hall
    rw [List.foldl_cons, ih _ (fun x hx => hall x (List.mem_cons_of_mem _ hx)),
      process_date_success_not_adv _ _ _ (hall d (List.mem_cons_self _ _))]

theorem foldl_sent (env : Env) : ∀ (dates : List Int) (c : PassCounts) (b : JValue),
    b ∈ (dates.foldl (process_date env) c).sent →
    b ∈ c.sent ∨ validate_stix_bundle b = true := by
  intro dates
  induction dates with
  | nil => intro c b h; exact .inl h
  | cons d rest ih =>
    intro c b h
    rw [List.foldl_cons] at h
    rcases ih _ b h with h2 | h2
    · exact process_date_sent env c d b h2
    · exact .inr h2

/-- The final watermark candidate of a pass is the last visited date
whose outcome advanced the candidate. -/
theorem run_pass_last_success (env : Env) (dates : List Int) :
    (run_pass env dates).last_success_date
      = (dates.filter (advances_candidate env)).getLast? := by
  rw [run_pass, foldl_last_success]
  cases (dates.filter (advances_candidate env)).getLast? <;> rfl

/-- If the pass counted at least one success, some visited date
advanced the candidate. -/
theorem run_pass_success_filter (env : Env) (dates : List Int)
    (h : (run_pass env dates).success_count ≥ 1) :
    dates.filter (advances_candidate env) ≠ [] := by
  intro hnil
  have h0 : (run_pass env dates).success_count = 0 :=
    foldl_success_zero env dates initCounts
      (fun d hd => Bool.eq_false_iff.mpr ((List.filter_eq_nil_iff.mp hnil) d hd))
  omega

theorem mem_of_getLast_some {α : Type} {l : List α} {y : α}
    (h : l.getLast? = some y) : y ∈ l := by
  rcases List.mem_getLast?_eq_getLast (Option.mem_def.mpr h) with ⟨hne, hyl⟩
  exact hyl ▸ List.getLast_mem hne

/-! Section: Helper lemmas about a whole `_process_dates` call -/

/-- If a pass persisted a watermark `w`, the loop ended with candidate
`w` and counted at least one success. -/
theorem persisted_some_inv (env : Env) (today lb : Int) (st : StoredState) (w : Int)
    (h : (process_dates env today lb st).persisted = some w) :
    (run_pass env (compute_date_range today lb st)).last_success_date = some w
    ∧ (run_pass env (compute_date_range today lb st)).success_count ≥ 1 := by
  simp only [process_dates] at h
  by_cases he : (compute_date_range today lb st).isEmpty = true
  · rw [if_pos he] at h
    exact Option.noConfusion (show (none : Option Int) = some w from h)
  · rw [if_neg he] at h
    cases hls : (run_pass env (compute_date_range today lb st)).last_success_date with
    | none =>
      rw [hls] at h
      exact Option.noConfusion (show (none : Option Int) = some w from h)
    | some x =>
      rw [hls] at h
      have h2 : (if (run_pass env (compute_date_range today lb st)).success_count ≥ 1
          then some x else (none : Option Int)) = some w := h
      by_cases hsc : (run_pass env (compute_date_range today lb st)).success_count ≥ 1
      · rw [if_pos hsc] at h2
        cases h2
        exact ⟨rfl, hsc⟩
      · rw [if_neg hsc] at h2
        exact Option.noConfusion h2

/-! Section: Concrete evaluations of the date-range computation -/

theorem date_range_eval_scenario :
    compute_date_range 10 2 StoredState.noState = [8, 9, 10] := by
  rw [show compute_date_range 10 2 StoredState.noState = build_dates (10 - 2) 10 from rfl,
    build_dates_eq]
  decide

theorem date_range_eval_send_fail :
    compute_date_range 2 7 (StoredState.validDate 0) = [1, 2] := by
  rw [show compute_date_range 2 7 (StoredState.validDate 0) = build_dates (0 + 1) 2 from rfl,
    build_dates_eq]
  decide

theorem date_range_eval_witness :
    compute_date_range 5 9 (StoredState.validDate 3) = [4, 5] := by
  rw [show compute_date_range 5 9 (StoredState.validDate 3) = build_dates (3 + 1) 5 from rfl,
    build_dates_eq]
  decide

theorem date_range_eval_fail :
    compute_date_range 3 1 StoredState.noState = [2, 3] := by
  rw [show compute_date_range 3 1 StoredState.noState = build_dates (3 - 1) 3 from rfl,
    build_dates_eq]
  decide

/-! Section: Claim theorems -/

/-- C1 (counterexample): in the §8 scenario — 404 on the first date,
valid five-object bundle on the second, transport error on the third —
the transport-error date is counted in the skipped counter, not the
error counter, so the summary reads "1 imported, 2 skipped, 0 errors
(out of 3 dates)" and not the claimed "1 imported, 1 skipped,
1 errors (out of 3 dates)". -/
theorem c1_counterexample :
    env_scenario.fetch 10 = FetchResult.transportError
    ∧ (process_dates env_scenario 10 2 StoredState.noState).counts.error_count = 0
    ∧ (process_dates env_scenario 10 2 StoredState.noState).counts.skip_count = 2
    ∧ (process_dates env_scenario 10 2 StoredState.noState).message
        = some (summary_message 1 2 0 3)
    ∧ ¬ (process_dates env_scenario 10 2 StoredState.noState).message
        = some (summary_message 1 1 1 3) := by
  refine ⟨rfl, ?_⟩
  simp only [process_dates, date_range_eval_scenario]
  decide

/-- C1 (amended): a date whose fetch fails with a transport/timeout
failure or whose response body is not parseable as JSON is counted in
the pass's skipped counter, exactly like a 404 (the download returns
`None` in all three cases), and it still advances the watermark
candidate. -/
theorem c1_amended_skip_counting (env : Env) (c : PassCounts) (d : Int)
    (h : env.fetch d = FetchResult.transportError ∨ env.fetch d = FetchResult.badJson) :
    process_date env c d
      = { c with skip_count := c.skip_count + 1, last_success_date := some d } := by
  rcases h with h | h <;> simp [process_date, download_report, h]

/-- Witness for the amended C1: the transport-error date of the §8
scenario is skip-counted. -/
theorem c1_amended_witness :
    process_date env_scenario initCounts 10
      = { initCounts with skip_count := initCounts.skip_count + 1,
                          last_success_date := some 10 } :=
  c1_amended_skip_counting env_scenario initCounts 10 (Or.inl rfl)

/-- C2 (counterexample): a pass over the two dates `[1, 2]` in which
day 1 imports successfully and day 2's forwarding to the sink fails
persists watermark 1, although the last date visited is 2 — a
forwarding failure does not advance the watermark candidate. -/
theorem c2_counterexample :
    (process_dates env_send_fail_last 2 7 (StoredState.validDate 0)).counts.success_count = 1
    ∧ (compute_date_range 2 7 (StoredState.validDate 0)).getLast? = some 2
    ∧ (process_dates env_send_fail_last 2 7 (StoredState.validDate 0)).persisted = some 1
    ∧ ¬ (process_dates env_send_fail_last 2 7 (StoredState.validDate 0)).persisted = some 2 := by
  simp only [process_dates, date_range_eval_send_fail]
  decide

/-- C2 (amended): for every pass in which at least one date succeeded,
the persisted watermark equals the last visited date whose outcome
advanced the candidate (404/validation-error/successful send); a date
whose forwarding to the sink fails does not advance the candidate. -/
theorem c2_amended_watermark (env : Env) (today lb : Int) (st : StoredState)
    (h : (process_dates env today lb st).counts.success_count ≥ 1) :
    (process_dates env today lb st).persisted
      = ((compute_date_range today lb st).filter (advances_candidate env)).getLast? := by
  simp only [process_dates] at h ⊢
  by_cases he : (compute_date_range today lb st).isEmpty = true
  · rw [if_pos he] at h
    have h2 : (0 : Nat) ≥ 1 := h
    omega
  · rw [if_neg he] at h ⊢
    have hsc : (run_pass env (compute_date_range today lb st)).success_count ≥ 1 := h
    have hfil := run_pass_success_filter env (compute_date_range today lb st) hsc
    cases hgl : ((compute_date_range today lb st).filter (advances_candidate env)).getLast? with
    | none => exact absurd (List.getLast?_eq_none_iff.mp hgl) hfil
    | some y =>
      have hls : (run_pass env (compute_date_range today lb st)).last_success_date = some y := by
        rw [run_pass_last_success, hgl]
      rw [hls]
      show (if (run_pass env (compute_date_range today lb st)).success_count ≥ 1
          then some y else (none : Option Int)) = some y
      rw [if_pos hsc]

/-- Witness for the amended C2 on a pass with one success and one 404. -/
theorem c2_amended_witness :
    (process_dates env_witness 5 9 (StoredState.validDate 3)).persisted
      = ((compute_date_range 5 9 (StoredState.validDate 3)).filter
          (advances_candidate env_witness)).getLast? :=
  c2_amended_watermark env_witness 5 9 (StoredState.validDate 3)
    (by simp only [process_dates, date_range_eval_witness]; decide)

/-- C3: for every pass in which zero dates succeeded, no watermark is
persisted and the state store is left holding exactly the prior
state. -/
theorem c3_no_persist_on_zero_success (env : Env) (today lb : Int) (st : StoredState)
    (h : (process_dates env today lb st).counts.success_count = 0) :
    (process_dates env today lb st).persisted = none
    ∧ updated_state st (process_dates env today lb st).persisted = st := by
  have hp : (process_dates env today lb st).persisted = none := by
    simp only [process_dates] at h ⊢
    by_cases he : (compute_date_range today lb st).isEmpty = true
    · rw [if_pos he]
    · rw [if_neg he] at h ⊢
      have h2 : (run_pass env (compute_date_range today lb st)).success_count = 0 := h
      cases hls : (run_pass env (compute_date_range today lb st)).last_success_date with
      | none => rfl
      | some x =>
        show (if (run_pass env (compute_date_range today lb st)).success_count ≥ 1
            then some x else (none : Option Int)) = none
        rw [if_neg (by omega)]
  exact ⟨hp, by rw [hp]; rfl⟩

/-- Witness for C3: a pass over `[2, 3]` in which both fetches fail
with transport errors persists nothing. -/
theorem c3_witness :
    (process_dates env_all_transport_fail 3 1 StoredState.noState).persisted = none
    ∧ updated_state StoredState.noState
        (process_dates env_all_transport_fail 3 1 StoredState.noState).persisted
      = StoredState.noState :=
  c3_no_persist_on_zero_success env_all_transport_fail 3 1 StoredState.noState
    (by simp only [process_dates, date_range_eval_fail]; decide)

/-- C4: the persisted watermark never moves backward — whenever a pass
reads a valid watermark `D` and persists `w`, then `D < w`, `w ≤ today`,
`w` is one of the processed dates, and every processed date lies in
`[D+1, today]`. -/
theorem c4_watermark_monotone (env : Env) (today lb D w : Int)
    (h : (process_dates env today lb (StoredState.validDate D)).persisted = some w) :
    D < w ∧ w ≤ today
    ∧ w ∈ compute_date_range today lb (StoredState.validDate D)
    ∧ ∀ x ∈ compute_date_range today lb (StoredState.validDate D),
        D + 1 ≤ x ∧ x ≤ today := by
  obtain ⟨hc, _⟩ := persisted_some_inv env today lb (StoredState.validDate D) w h
  rw [run_pass_last_success] at hc
  have hwm : w ∈ compute_date_range today lb (StoredState.validDate D) :=
    List.mem_of_mem_filter (mem_of_getLast_some hc)
  have hall : ∀ x ∈ compute_date_range today lb (StoredState.validDate D),
      D + 1 ≤ x ∧ x ≤ today := by
    intro x hx
    have hcd : compute_date_range today lb (StoredState.validDate D)
        = if D + 1 > today then [] else build_dates (D + 1) today := rfl
    rw [hcd] at hx
    by_cases hgt : D + 1 > today
    · rw [if_pos hgt] at hx
      cases hx
    · rw [if_neg hgt] at hx
      exact build_dates_mem.mp hx
  obtain ⟨h1, h2⟩ := hall w hwm
  exact ⟨by omega, h2, hwm, hall⟩

/-- Witness for C4: from watermark 3, a pass over `[4, 5]` with one
success persists 5, which is ahead of 3 and at most today. -/
theorem c4_witness :
    (3 : Int) < 5 ∧ (5 : Int) ≤ 5
    ∧ (5 : Int) ∈ compute_date_range 5 9 (StoredState.validDate 3)
    ∧ ∀ x ∈ compute_date_range 5 9 (StoredState.validDate 3),
        (3 : Int) + 1 ≤ x ∧ x ≤ 5 :=
  c4_watermark_monotone env_witness 5 9 3 5
    (by simp only [process_dates, date_range_eval_witness]; decide)

/-- C5: for every watermark-absent state and every lookback `L ≥ 0`,
the reconciled date list is the ascending contiguous progression from
`today - L` to `today`: exactly `L+1` entries, ending at today; in
particular `L = 0` yields the single date today. -/
theorem c5_backfill_range (today L : Int) (h : 0 ≤ L) :
    compute_date_range today L StoredState.noState
        = (List.range (L.toNat + 1)).map (fun i : Nat => (today - L + i : Int))
    ∧ (compute_date_range today L StoredState.noState).length = L.toNat + 1
    ∧ (compute_date_range today L StoredState.noState).getLast? = some today := by
  have hcd : compute_date_range today L StoredState.noState
      = build_dates (today - L) today := rfl
  refine ⟨?_, ?_, ?_⟩
  · rw [hcd, build_dates_eq]
    have hn : (today + 1 - (today - L)).toNat = L.toNat + 1 := by omega
    rw [hn]
  · rw [hcd, build_dates_length]
    omega
  · rw [hcd]
    exact build_dates_getLast _ _ (by omega)

/-- Witness for C5 at `today = 7`, `L = 0`: the single date 7. -/
theorem c5_witness :
    compute_date_range 7 0 StoredState.noState
        = (List.range ((0 : Int).toNat + 1)).map (fun i : Nat => ((7 : Int) - 0 + i : Int))
    ∧ (compute_date_range 7 0 StoredState.noState).length = (0 : Int).toNat + 1
    ∧ (compute_date_range 7 0 StoredState.noState).getLast? = some 7 :=
  c5_backfill_range 7 0 (by decide)

/-- C6: for every valid persisted watermark `D`, the reconciled list is
the ascending contiguous progression `D+1, …, today` when `D < today`,
and empty when `D ≥ today`. -/
theorem c6_watermark_range (today lb D : Int) :
    compute_date_range today lb (StoredState.validDate D)
      = if D < today
        then (List.range (today - D).toNat).map (fun i : Nat => (D + 1 + i : Int))
        else [] := by
  have hcd : compute_date_range today lb (StoredState.validDate D)
      = if D + 1 > today then [] else build_dates (D + 1) today := rfl
  rw [hcd]
  by_cases h : D < today
  · rw [if_neg (by omega), if_pos h, build_dates_eq]
    have hn : (today + 1 - (D + 1)).toNat = (today - D).toNat := by omega
    rw [hn]
  · rw [if_pos (by omega), if_neg h]

/-- C7: a payload whose `"objects"` field is missing or not a list, or
whose `"type"` discriminator is not the literal string `"bundle"`,
fails validation and is never forwarded to the sink in any pass. -/
theorem c7_invalid_never_sent (env : Env) (dates : List Int)
    (fields : List (String × JValue))
    (h : jlookup "objects" fields = none
       ∨ (∃ v, jlookup "objects" fields = some v ∧ ∀ xs, v ≠ JValue.jarr xs)
       ∨ ¬ jlookup "type" fields = some (JValue.jstr "bundle")) :
    validate_stix_bundle (JValue.jobj fields) = false
    ∧ JValue.jobj fields ∉ (run_pass env dates).sent := by
  have hv : validate_stix_bundle (JValue.jobj fields) = false := by
    rcases h with h | ⟨v, hv1, hv2⟩ | h
    · simp [validate_stix_bundle, h]
    · cases v with
      | jarr xs => exact absurd rfl (hv2 xs)
      | jnull => simp [validate_stix_bundle, hv1]
      | jbool b2 => simp [validate_stix_bundle, hv1]
      | jnum n => simp [validate_stix_bundle, hv1]
      | jstr s => simp [validate_stix_bundle, hv1]
      | jobj fs => simp [validate_stix_bundle, hv1]
    · cases htl : jlookup "type" fields with
      | none => simp [validate_stix_bundle, htl]
      | some v =>
        cases v with
        | jstr s =>
          by_cases hs : s = "bundle"
          · exact absurd (by rw [htl, hs]) h
          · simp [validate_stix_bundle, htl, hs]
        | jnull => simp [validate_stix_bundle, htl]
        | jbool b2 => simp [validate_stix_bundle, htl]
        | jnum n => simp [validate_stix_bundle, htl]
        | jarr xs => simp [validate_stix_bundle, htl]
        | jobj fs => simp [validate_stix_bundle, htl]
  refine ⟨hv, fun hmem => ?_⟩
  rcases foldl_sent env dates initCounts (JValue.jobj fields) hmem with h2 | h2
  · simp [initCounts] at h2
  · rw [hv] at h2
    exact Bool.noConfusion h2

/-- Witness for C7: a payload with a discriminator but no `"objects"`
field fails validation and is absent from the sent list. -/
theorem c7_witness :
    validate_stix_bundle (JValue.jobj [("type", JValue.jstr "bundle")]) = false
    ∧ JValue.jobj [("type", JValue.jstr "bundle")]
        ∉ (run_pass env_witness []).sent :=
  c7_invalid_never_sent env_witness [] [("type", JValue.jstr "bundle")] (Or.inl rfl)

/-- C8: a persisted state whose `last_processed_date` value is
malformed or unparseable is treated exactly like an absent watermark —
the reconciler backfills from `today - lookback_days` and raises no
fatal error (the embedded function is total). -/
theorem c8_malformed_state_backfills (today lb : Int) :
    compute_date_range today lb StoredState.unparseable
      = compute_date_range today lb StoredState.noState := rfl

/-- C9: a 404 date is a soft skip — the skip counter is incremented,
the error counter and sent list are untouched, the watermark candidate
becomes that date, and whenever the pass persists a watermark `w`, the
404 date is covered by it (`d ≤ w`). -/
theorem c9_notfound_soft_skip (env : Env) (c : PassCounts) (today lb : Int)
    (st : StoredState) (d w : Int)
    (h404 : env.fetch d = FetchResult.notFound)
    (hmem : d ∈ compute_date_range today lb st)
    (hw : (process_dates env today lb st).persisted = some w) :
    process_date env c d
        = { c with skip_count := c.skip_count + 1, last_success_date := some d }
    ∧ d ≤ w := by
  constructor
  · simp [process_date, download_report, h404]
  · obtain ⟨hc, _⟩ := persisted_some_inv env today lb st w hw
    rw [run_pass_last_success] at hc
    have hadv : advances_candidate env d = true := by
      simp [advances_candidate, download_report, h404]
    exact mem_le_getLast
      (List.Pairwise.filter _ (compute_date_range_sorted today lb st))
      (List.mem_filter.mpr ⟨hmem, hadv⟩) hc

/-- Witness for C9: the 404 on day 5 of the witness pass is
skip-counted and covered by the persisted watermark 5. -/
theorem c9_witness :
    process_date env_witness initCounts 5
        = { initCounts with skip_count := initCounts.skip_count + 1,
                            last_success_date := some 5 }
    ∧ (5 : Int) ≤ 5 :=
  c9_notfound_soft_skip env_witness initCounts 5 9 (StoredState.validDate 3) 5 5
    rfl
    (by rw [date_range_eval_witness]; decide)
    (by simp only [process_dates, date_range_eval_witness]; decide)

/-- C10: a downloaded payload that parses as JSON but is not a mapping
fails validation, is counted as a validation error (advancing the
candidate), and is never forwarded to the sink (the sent list is
unchanged). -/
theorem c10_nondict_validation_error (env : Env) (c : PassCounts) (d : Int) (b : JValue)
    (hfetch : env.fetch d = FetchResult.ok b) (hnd : is_dict b = false) :
    validate_stix_bundle b = false
    ∧ process_date env c d
        = { c with error_count := c.error_count + 1, last_success_date := some d } := by
  have hv : validate_stix_bundle b = false := by
    cases b <;> simp_all [is_dict, validate_stix_bundle]
  exact ⟨hv, by simp [process_date, download_report, hfetch, hv]⟩

/-- Witness for C10: a top-level JSON list is rejected and counted as
an error. -/
theorem c10_witness :
    validate_stix_bundle (JValue.jarr []) = false
    ∧ process_date env_nondict initCounts 0
        = { initCounts with error_count := initCounts.error_count + 1,
                            last_success_date := some 0 } :=
  c10_nondict_validation_error env_nondict initCounts 0 (JValue.jarr []) rfl rfl

end VigilIntel
